import Mathlib

/-!
Verification of the `schedule` library (in-process periodic job scheduler)
against its natural-language specification.

The embedding below is a shallow embedding of `schedule/job.py` and
`schedule/async_scheduler.py`:

* Naive `datetime.datetime` values are embedded as microseconds since the
  epoch 1970-01-01 00:00:00 (an `Int`).  All datetimes in the source are
  naive local-time values; microsecond resolution is exact for Python's
  `datetime` arithmetic and comparisons.
* `datetime.timedelta` is embedded as a signed microsecond count.
* `datetime.datetime.now()` is embedded as an explicit parameter `now`.
  The repository's tests drive the scheduler under a frozen clock
  (`mock_datetime`), under which every `now()` call in one operation
  observes the same instant; the embedding therefore threads a single
  `now` value through each operation.
* `random.randint(a, b)` is embedded as an explicit parameter `draw`;
  `randint`'s contract guarantees `a ≤ draw ≤ b` (uniformly), which
  theorems take as a hypothesis.
* Raised exceptions are embedded as the `Except` error component; where a
  claim is about mutation atomicity the embedded operation returns the
  post-state of the mutated object next to the outcome.
-/

namespace Sched

/-! ## Time model -/

def usecPerSecond : Int := 1000000

def usecPerMinute : Int := 60000000

def usecPerHour : Int := 3600000000

def usecPerDay : Int := 86400000000

def usecPerWeek : Int := 604800000000

/-- A `datetime.timedelta`: a signed duration in microseconds. -/
structure TimeDelta where
  usec : Int
deriving DecidableEq, Repr

/-- Python's `timedelta.days` attribute: floor of the duration in days. -/
def TimeDelta.days (d : TimeDelta) : Int := d.usec / usecPerDay

/-- A naive `datetime.datetime`: microseconds since 1970-01-01 00:00:00. -/
structure DateTime where
  usec : Int
deriving DecidableEq, Repr

def DateTime.add (dt : DateTime) (d : TimeDelta) : DateTime := ⟨dt.usec + d.usec⟩

/-- `datetime - datetime` yields a `timedelta`. -/
def DateTime.sub (a b : DateTime) : TimeDelta := ⟨a.usec - b.usec⟩

/-- `datetime - timedelta`. -/
def DateTime.subD (dt : DateTime) (d : TimeDelta) : DateTime := ⟨dt.usec - d.usec⟩

/-- Days since the epoch (floor). -/
def DateTime.days (dt : DateTime) : Int := dt.usec / usecPerDay

/-- Microseconds elapsed since local midnight, in `[0, usecPerDay)`. -/
def DateTime.usecOfDay (dt : DateTime) : Int := dt.usec % usecPerDay

/-- Python's `datetime.weekday()`: Monday = 0 … Sunday = 6.
The epoch 1970-01-01 was a Thursday (= 3). -/
def DateTime.weekday (dt : DateTime) : Int := (dt.days + 3) % 7

def DateTime.hour (dt : DateTime) : Int := dt.usecOfDay / usecPerHour

def DateTime.minute (dt : DateTime) : Int := dt.usecOfDay % usecPerHour / usecPerMinute

def DateTime.second (dt : DateTime) : Int := dt.usecOfDay % usecPerMinute / usecPerSecond

/-- `datetime.replace(hour=…, minute=…, second=…, microsecond=0)` where the
`hour` and `minute` keyword arguments may be absent (the source builds the
keyword dictionary dynamically); `second` is always given and `microsecond`
is always reset to 0. -/
def DateTime.replaceHMS (dt : DateTime) (h? m? : Option Int) (s : Int) : DateTime :=
  ⟨dt.days * usecPerDay + (h?.getD dt.hour) * usecPerHour
    + (m?.getD dt.minute) * usecPerMinute + s * usecPerSecond⟩

/-- `datetime.replace(year=ref.year, month=ref.month, day=ref.day)`:
replace the whole calendar date, keeping the time of day. -/
def DateTime.setDate (dt : DateTime) (ref : DateTime) : DateTime :=
  ⟨ref.days * usecPerDay + dt.usecOfDay⟩

/-- Days since 1970-01-01 of the civil date `y-m-d` (proleptic Gregorian). -/
def daysFromCivil (y m d : Int) : Int :=
  let y' := if m ≤ 2 then y - 1 else y
  let era := y' / 400
  let yoe := y' - era * 400
  let mp := (m + 9) % 12
  let doy := (153 * mp + 2) / 5 + d - 1
  let doe := yoe * 365 + yoe / 4 - yoe / 100 + doy
  era * 146097 + doe - 719468

/-- Construct the naive datetime `y-mo-d h:mi:s` (microsecond 0). -/
def mkDateTime (y mo d h mi s : Int) : DateTime :=
  ⟨daysFromCivil y mo d * usecPerDay + h * usecPerHour + mi * usecPerMinute + s * usecPerSecond⟩

/-- A `datetime.time` value as produced by `Job.at` (microsecond always 0). -/
structure TimeOfDay where
  hour : Int
  minute : Int
  second : Int
deriving DecidableEq, Repr

def TimeOfDay.toUsec (t : TimeOfDay) : Int :=
  t.hour * usecPerHour + t.minute * usecPerMinute + t.second * usecPerSecond

/-- Python's `self.at_time > now.time()`: lexicographic comparison of
`(hour, minute, second, microsecond)`, which for in-range fields equals the
numeric comparison of microseconds-of-day (`at_time` has microsecond 0). -/
def TimeOfDay.gtTime (t : TimeOfDay) (dt : DateTime) : Bool :=
  t.toUsec > dt.usecOfDay

deriving instance DecidableEq for Except

/-! ## Exceptions and values -/

/-- The exception classes raised by the embedded code.  `schedule` is the
base class `ScheduleError`; `scheduleValue` is `ScheduleValueError` (a
subclass of `ScheduleError`); `interval` is `IntervalError` (a subclass of
`ScheduleValueError`); `typeErr` and `valueErr` are the builtin `TypeError`
and `ValueError`; `callable` stands for an arbitrary exception raised by a
job's callable. -/
inductive PyErr where
  | schedule (msg : String)
  | scheduleValue (msg : String)
  | interval (msg : String)
  | typeErr (msg : String)
  | valueErr (msg : String)
  | callable (msg : String)
deriving DecidableEq, Repr

/-- Whether `except ScheduleValueError` would catch the exception:
`ScheduleValueError` itself and its subclass `IntervalError`. -/
def PyErr.isScheduleValueError : PyErr → Bool
  | .scheduleValue _ => true
  | .interval _ => true
  | _ => false

/-- The value returned by a job's callable: the `CancelJob` sentinel or any
other Python value (abstracted as an integer code). -/
inductive RetVal where
  | cancelJob
  | value (v : Int)
deriving DecidableEq, Repr

/-- A candidate tag argument: its identity plus whether
`isinstance(tag, Hashable)` holds for it. -/
structure Tag where
  id : Nat
  hashable : Bool
deriving DecidableEq, Repr

/-! ## The Job record -/

/-- The mutable state of `schedule.Job` (the scheduler back-reference and
the bound callable are threaded separately: the callable's behaviour enters
`Job.run` as the outcome parameter `fnResult`). -/
structure Job where
  interval : Int
  latest : Option Int := none
  unit : Option String := none
  atTime : Option TimeOfDay := none
  lastRun : Option DateTime := none
  nextRun : Option DateTime := none
  period : Option TimeDelta := none
  startDay : Option String := none
  cancelAfter : Option DateTime := none
  tags : List Tag := []
deriving DecidableEq, Repr

/-- `Scheduler.every(interval)`: a fresh job with everything unset. -/
def every (interval : Int := 1) : Job := { interval := interval }

def weekdayNames : List String :=
  ["monday", "tuesday", "wednesday", "thursday", "friday", "saturday", "sunday"]

/-- `datetime.timedelta(**{unit: n})` for the five accepted unit names
(callers establish that `u` is one of them before this is evaluated). -/
def unitDelta (u : String) (n : Int) : TimeDelta :=
  if u = "seconds" then ⟨n * usecPerSecond⟩
  else if u = "minutes" then ⟨n * usecPerMinute⟩
  else if u = "hours" then ⟨n * usecPerHour⟩
  else if u = "days" then ⟨n * usecPerDay⟩
  else ⟨n * usecPerWeek⟩

def tdDays (n : Int) : TimeDelta := ⟨n * usecPerDay⟩

def tdHours (n : Int) : TimeDelta := ⟨n * usecPerHour⟩

def tdMinutes (n : Int) : TimeDelta := ⟨n * usecPerMinute⟩

def tdSeconds (n : Int) : TimeDelta := ⟨n * usecPerSecond⟩

/-! ## Job._schedule_next_run

`now` is the frozen clock value observed by the `datetime.datetime.now()`
calls in the body; `draw` is the value returned by
`random.randint(self.interval, self.latest)` when `latest` is set (unused
otherwise).  On success the result carries the updated job together with
the computed `next_run` (which the job's `nextRun` field also stores). -/

/-- The interval actually used for this cycle: `self.interval`, or — when
`latest` is set and the bound check passes — the value `draw` returned by
`random.randint(self.interval, self.latest)`. -/
def Job.chooseInterval (j : Job) (draw : Int) : Except PyErr Int :=
  match j.latest with
  | some l =>
    if ¬ (l ≥ j.interval) then .error (.schedule "latest is greater than interval")
    else .ok draw
  | none => .ok j.interval

/-- The `start_day` block of `_schedule_next_run`, applied to the base
candidate `nr0 = now + period`. -/
def Job.weekdayStep (j : Job) (u : String) (period : TimeDelta) (nr0 : DateTime) :
    Except PyErr DateTime :=
  match j.startDay with
  | none => .ok nr0
  | some sd =>
    if u ≠ "weeks" then .error (.scheduleValue "unit should be weeks")
    else if ¬ (sd ∈ weekdayNames) then .error (.scheduleValue "Invalid start day")
    else
      let weekday : Int := (weekdayNames.indexOf sd : Nat)
      let daysAhead0 := weekday - nr0.weekday
      let daysAhead := if daysAhead0 ≤ 0 then daysAhead0 + 7 else daysAhead0
      .ok ((nr0.add (tdDays daysAhead)).subD period)

/-- The `at_time` block of `_schedule_next_run`: wall-clock replacement
followed by the catch-up-today rewind. -/
def Job.atStep (j : Job) (u : String) (period : TimeDelta) (now : DateTime)
    (nr1 : DateTime) : Except PyErr DateTime :=
  match j.atTime with
  | none => .ok nr1
  | some t =>
    if ¬ (u = "days" ∨ u = "hours" ∨ u = "minutes") ∧ j.startDay = none then
      .error (.scheduleValue "Invalid unit without specifying start day")
    else
      let hourK : Option Int :=
        if u = "days" ∨ j.startDay ≠ none then some t.hour else none
      let minuteK : Option Int :=
        if u = "days" ∨ u = "hours" ∨ j.startDay ≠ none then some t.minute else none
      let nrA := nr1.replaceHMS hourK minuteK t.second
      let trigger : Bool :=
        match j.lastRun with
        | none => true
        | some lr => (nrA.sub lr).usec > period.usec
      if trigger then
        if u = "days" ∧ t.gtTime now ∧ j.interval = 1 then
          .ok (nrA.subD (tdDays 1))
        else if u = "hours" ∧ (t.minute > now.minute ∨
            (t.minute = now.minute ∧ t.second > now.second)) then
          .ok (nrA.subD (tdHours 1))
        else if u = "minutes" ∧ t.second > now.second then
          .ok (nrA.subD (tdMinutes 1))
        else .ok nrA
      else .ok nrA

/-- The final weekday-plus-at_time overshoot guard of
`_schedule_next_run`. -/
def Job.overshootStep (j : Job) (period : TimeDelta) (now : DateTime)
    (nr2 : DateTime) : DateTime :=
  if j.startDay ≠ none ∧ j.atTime ≠ none then
    if (nr2.sub now).days ≥ 7 then nr2.subD period else nr2
  else nr2

def Job.nextRunCore (j : Job) (now : DateTime) (draw : Int) :
    Except PyErr (TimeDelta × DateTime) :=
  match j.unit with
  | none => .error (.scheduleValue "Invalid unit (valid units are seconds, minutes, hours, days, and weeks)")
  | some u =>
    if ¬ (u = "seconds" ∨ u = "minutes" ∨ u = "hours" ∨ u = "days" ∨ u = "weeks") then
      .error (.scheduleValue "Invalid unit (valid units are seconds, minutes, hours, days, and weeks)")
    else
      match j.chooseInterval draw with
      | .error e => .error e
      | .ok interval =>
        let period := unitDelta u interval
        match j.weekdayStep u period (now.add period) with
        | .error e => .error e
        | .ok nr1 =>
          match j.atStep u period now nr1 with
          | .error e => .error e
          | .ok nr2 => .ok (period, j.overshootStep period now nr2)

/-- The record update performed by `_schedule_next_run` on success:
`self.period` and `self.next_run` are assigned (the core above computes
their final values); the returned instant duplicates `next_run` for
convenience of the statements below. -/
def Job.scheduleNextRun (j : Job) (now : DateTime) (draw : Int) :
    Except PyErr (Job × DateTime) :=
  match j.nextRunCore now draw with
  | .error e => .error e
  | .ok (p, nr) => .ok ({ j with period := some p, nextRun := some nr }, nr)

/-! ## Builder surface: time units and weekday anchors -/

def Job.seconds (j : Job) : Job := { j with unit := some "seconds" }

def Job.minutes (j : Job) : Job := { j with unit := some "minutes" }

def Job.hours (j : Job) : Job := { j with unit := some "hours" }

def Job.days (j : Job) : Job := { j with unit := some "days" }

def Job.weeks (j : Job) : Job := { j with unit := some "weeks" }

def Job.second (j : Job) : Except PyErr Job :=
  if j.interval ≠ 1 then .error (.interval "Use seconds instead of second") else .ok j.seconds

def Job.minute (j : Job) : Except PyErr Job :=
  if j.interval ≠ 1 then .error (.interval "Use minutes instead of minute") else .ok j.minutes

def Job.hour (j : Job) : Except PyErr Job :=
  if j.interval ≠ 1 then .error (.interval "Use hours instead of hour") else .ok j.hours

def Job.day (j : Job) : Except PyErr Job :=
  if j.interval ≠ 1 then .error (.interval "Use days instead of day") else .ok j.days

def Job.week (j : Job) : Except PyErr Job :=
  if j.interval ≠ 1 then .error (.interval "Use weeks instead of week") else .ok j.weeks

/-- The seven weekday properties share this shape: assert `interval = 1`,
set `start_day`, then return `self.weeks`. -/
def Job.weekdayAnchor (j : Job) (name : String) : Except PyErr Job :=
  if j.interval ≠ 1 then
    .error (.interval "weekday jobs are only allowed for weekly jobs")
  else .ok { j with startDay := some name, unit := some "weeks" }

def Job.monday (j : Job) : Except PyErr Job := j.weekdayAnchor "monday"

def Job.tuesday (j : Job) : Except PyErr Job := j.weekdayAnchor "tuesday"

def Job.wednesday (j : Job) : Except PyErr Job := j.weekdayAnchor "wednesday"

def Job.thursday (j : Job) : Except PyErr Job := j.weekdayAnchor "thursday"

def Job.friday (j : Job) : Except PyErr Job := j.weekdayAnchor "friday"

def Job.saturday (j : Job) : Except PyErr Job := j.weekdayAnchor "saturday"

def Job.sunday (j : Job) : Except PyErr Job := j.weekdayAnchor "sunday"

/-! ## Job.tag -/

/-- `set.update(tags)`: add each argument to the set, coalescing
duplicates (the embedded set is a duplicate-free list). -/
def tagsUpdate (tags : List Tag) (ts : List Tag) : List Tag :=
  ts.foldl (fun acc t => if t ∈ acc then acc else acc ++ [t]) tags

/-- `Job.tag(*tags)`: the hashability of every argument is checked before
the set is touched; on failure `TypeError` is raised and the job (second
component: post-state of `self`) is unchanged. -/
def Job.tag (j : Job) (ts : List Tag) : Except PyErr Unit × Job :=
  if ¬ (ts.all (fun t => t.hashable)) then
    (.error (.typeErr "Tags must be hashable"), j)
  else (.ok (), { j with tags := tagsUpdate j.tags ts })

/-! ## Job.at -/

def isDigitCh (c : Char) : Bool := '0' ≤ c && c ≤ '9'

/-- The daily-job regex `^([0-2]\d:)?[0-5]\d:[0-5]\d$`. -/
def matchDailyRe (cs : List Char) : Bool :=
  match cs with
  | [h1, h2, ':', m1, m2, ':', s1, s2] =>
      '0' ≤ h1 && h1 ≤ '2' && isDigitCh h2 && '0' ≤ m1 && m1 ≤ '5' && isDigitCh m2 &&
      '0' ≤ s1 && s1 ≤ '5' && isDigitCh s2
  | [m1, m2, ':', s1, s2] =>
      '0' ≤ m1 && m1 ≤ '5' && isDigitCh m2 && '0' ≤ s1 && s1 ≤ '5' && isDigitCh s2
  | _ => false

/-- The hourly-job regex `^([0-5]\d)?:[0-5]\d$`. -/
def matchHourlyRe (cs : List Char) : Bool :=
  match cs with
  | [m1, m2, ':', s1, s2] =>
      '0' ≤ m1 && m1 ≤ '5' && isDigitCh m2 && '0' ≤ s1 && s1 ≤ '5' && isDigitCh s2
  | [':', s1, s2] => '0' ≤ s1 && s1 ≤ '5' && isDigitCh s2
  | _ => false

/-- The minutely-job regex `^:[0-5]\d$`. -/
def matchMinuteRe (cs : List Char) : Bool :=
  match cs with
  | [':', s1, s2] => '0' ≤ s1 && s1 ≤ '5' && isDigitCh s2
  | _ => false

/-- Accumulate the value of a digit string; `none` on a non-digit. -/
def charsToNat : List Char → Nat → Option Nat
  | [], acc => some acc
  | c :: rest, acc =>
    if isDigitCh c then charsToNat rest (acc * 10 + (c.toNat - 48)) else none

/-- Python's `int(s)` on the strings that reach it here (digit strings, or
the literal `"0"` substituted by the branches); a non-numeric string raises
`ValueError`. -/
def pyInt (s : String) : Except PyErr Int :=
  match s.toList with
  | [] => .error (.valueErr "invalid literal for int() with base 10")
  | cs =>
    match charsToNat cs 0 with
    | some n => .ok (n : Int)
    | none => .error (.valueErr "invalid literal for int() with base 10")

/-- Python's `str.split(":")` (on the character list). -/
def splitColonAux : List Char → List Char → List String
  | [], acc => [String.mk acc.reverse]
  | c :: rest, acc =>
    if c = ':' then String.mk acc.reverse :: splitColonAux rest []
    else splitColonAux rest (c :: acc)

def splitColon (s : String) : List String := splitColonAux s.toList []

/-- `Job.at(time_str)`.  The argument is typed as a string, so the
`isinstance(time_str, str)` TypeError branch of the source is vacuous in
the embedding.  On success `at_time` is set; the pre-existing job fields
are otherwise unchanged. -/
def Job.at (j : Job) (timeStr : String) : Except PyErr Job :=
  if ¬ (j.unit = some "days" ∨ j.unit = some "hours" ∨ j.unit = some "minutes")
      ∧ j.startDay = none then
    .error (.scheduleValue "Invalid unit (valid units are days, hours, and minutes)")
  else if (j.unit = some "days" ∨ j.startDay ≠ none) ∧ ¬ matchDailyRe timeStr.toList then
    .error (.scheduleValue "Invalid time format for a daily job")
  else if j.unit = some "hours" ∧ ¬ matchHourlyRe timeStr.toList then
    .error (.scheduleValue "Invalid time format for an hourly job")
  else if j.unit = some "minutes" ∧ ¬ matchMinuteRe timeStr.toList then
    .error (.scheduleValue "Invalid time format for a minutely job")
  else
    let timeValues := splitColon timeStr
    let partsE : Except PyErr (String × String × String) :=
      match timeValues with
      | [h, m, s] => .ok (h, m, s)
      | [a, b] =>
        if j.unit = some "minutes" then .ok ("0", "0", b)
        else if j.unit = some "hours" ∧ a.length ≠ 0 then .ok ("0", a, b)
        else .ok (a, b, "0")
      | _ => .error (.valueErr "not enough values to unpack")
    match partsE with
    | .error e => .error e
    | .ok (hourStr, minuteStr, secondStr) =>
      let hourE : Except PyErr Int :=
        if j.unit = some "days" ∨ j.startDay ≠ none then
          match pyInt hourStr with
          | .error e => .error e
          | .ok h =>
            if ¬ (0 ≤ h ∧ h ≤ 23) then
              .error (.scheduleValue "Invalid number of hours")
            else .ok h
        else if j.unit = some "hours" then .ok 0
        else .ok 0
      let minuteStr' := if j.unit = some "minutes" then "0" else minuteStr
      match hourE with
      | .error e => .error e
      | .ok hour =>
        match pyInt minuteStr' with
        | .error e => .error e
        | .ok minute =>
          match pyInt secondStr with
          | .error e => .error e
          | .ok second => .ok { j with atTime := some ⟨hour, minute, second⟩ }

/-! ## Job.to -/

def Job.to (j : Job) (latest : Int) : Job := { j with latest := some latest }

/-! ## Job.until

The argument of `until()` is dynamically typed; the inductive below covers
the accepted types plus a representative of any other type. -/

inductive UntilArg where
  | dt (d : DateTime)
  | delta (td : TimeDelta)
  | tod (t : TimeOfDay)
  | str (s : String)
  | other
deriving DecidableEq, Repr

def isLeapYear (y : Int) : Bool := (y % 4 = 0 && y % 100 ≠ 0) || y % 400 = 0

def daysInMonth (y m : Int) : Int :=
  if m = 2 then (if isLeapYear y then 29 else 28)
  else if m = 4 ∨ m = 6 ∨ m = 9 ∨ m = 11 then 30 else 31

/-- Parsed fields of `strptime` with its documented defaults
(1900-01-01 00:00:00). -/
structure TM where
  year : Int := 1900
  month : Int := 1
  day : Int := 1
  hour : Int := 0
  minute : Int := 0
  second : Int := 0
deriving DecidableEq, Repr

def digitVal (c : Char) : Int := (c.toNat : Int) - 48

/-- Match a numeric `strptime` directive that accepts one or two digits in
the value range `[lo, hi]` (two digits preferred, as the generated regex
alternation does). -/
def parse2 (lo hi : Int) (cs : List Char) : Option (Int × List Char) :=
  match cs with
  | c1 :: c2 :: rest =>
    if isDigitCh c1 && isDigitCh c2 && lo ≤ digitVal c1 * 10 + digitVal c2
        && digitVal c1 * 10 + digitVal c2 ≤ hi then
      some (digitVal c1 * 10 + digitVal c2, rest)
    else if isDigitCh c1 && lo ≤ digitVal c1 && digitVal c1 ≤ hi then
      some (digitVal c1, c2 :: rest)
    else none
  | [c1] =>
    if isDigitCh c1 && lo ≤ digitVal c1 && digitVal c1 ≤ hi then some (digitVal c1, [])
    else none
  | [] => none

/-- Match the `%Y` directive: exactly four digits. -/
def parse4 (cs : List Char) : Option (Int × List Char) :=
  match cs with
  | c1 :: c2 :: c3 :: c4 :: rest =>
    if isDigitCh c1 && isDigitCh c2 && isDigitCh c3 && isDigitCh c4 then
      some (digitVal c1 * 1000 + digitVal c2 * 100 + digitVal c3 * 10 + digitVal c4, rest)
    else none
  | _ => none

/-- Run a `strptime` format (a character list containing `%Y %m %d %H %M %S`
directives and literal characters) against the input. -/
def runFormat : List Char → List Char → TM → Option TM
  | [], [], tm => some tm
  | [], _ :: _, _ => none
  | '%' :: 'Y' :: fmt, cs, tm =>
    match parse4 cs with
    | some (v, rest) => runFormat fmt rest { tm with year := v }
    | none => none
  | '%' :: 'm' :: fmt, cs, tm =>
    match parse2 1 12 cs with
    | some (v, rest) => runFormat fmt rest { tm with month := v }
    | none => none
  | '%' :: 'd' :: fmt, cs, tm =>
    match parse2 1 31 cs with
    | some (v, rest) => runFormat fmt rest { tm with day := v }
    | none => none
  | '%' :: 'H' :: fmt, cs, tm =>
    match parse2 0 23 cs with
    | some (v, rest) => runFormat fmt rest { tm with hour := v }
    | none => none
  | '%' :: 'M' :: fmt, cs, tm =>
    match parse2 0 59 cs with
    | some (v, rest) => runFormat fmt rest { tm with minute := v }
    | none => none
  | '%' :: 'S' :: fmt, cs, tm =>
    match parse2 0 59 cs with
    | some (v, rest) => runFormat fmt rest { tm with second := v }
    | none => none
  | c :: fmt, c' :: cs, tm => if c = c' then runFormat fmt cs tm else none
  | _ :: _, [], _ => none

/-- `datetime.datetime.strptime(s, fmt)`: parse, then validate the civil
date the way the `datetime` constructor does (day within month, year ≥ 1). -/
def strptime (s fmt : String) : Option DateTime :=
  match runFormat fmt.toList s.toList {} with
  | none => none
  | some tm =>
    if 1 ≤ tm.year ∧ 1 ≤ tm.day ∧ tm.day ≤ daysInMonth tm.year tm.month then
      some (mkDateTime tm.year tm.month tm.day tm.hour tm.minute tm.second)
    else none

/-- `Job._decode_datetimestr`: first format that parses, else `None`. -/
def decodeDatetimestr (s : String) : List String → Option DateTime
  | [] => none
  | f :: rest =>
    match strptime s f with
    | some d => some d
    | none => decodeDatetimestr s rest

def untilFormats : List String :=
  ["%Y-%m-%d %H:%M:%S", "%Y-%m-%d %H:%M", "%Y-%m-%d", "%H:%M:%S", "%H:%M"]

/-- `Job.until(until_time)`.  `now` is the frozen clock value observed by
the `datetime.datetime.now()` calls in the body.  The source assigns
`self.cancel_after` before the final past-deadline check; the embedding
returns the raised error, the claim under test concerning only which error
is raised and for which arguments. -/
def Job.until (j : Job) (untilTime : UntilArg) (now : DateTime) : Except PyErr Job :=
  let cancelAfterE : Except PyErr DateTime :=
    match untilTime with
    | .dt d => .ok d
    | .delta td => .ok (now.add td)
    | .tod t => .ok ⟨now.days * usecPerDay + t.toUsec⟩
    | .str s =>
      match decodeDatetimestr s untilFormats with
      | none => .error (.scheduleValue "Invalid string format for until()")
      | some d => .ok (if ¬ (s.toList.contains '-') then d.setDate now else d)
    | .other =>
      .error (.typeErr "until() takes a string, datetime.datetime, datetime.timedelta, datetime.time parameter")
  match cancelAfterE with
  | .error e => .error e
  | .ok cancelAfter =>
    if cancelAfter.usec < now.usec then
      .error (.scheduleValue "Cannot schedule a job to run until a time in the past")
    else .ok { j with cancelAfter := some cancelAfter }

/-! ## The registry and Job.do -/

structure Sch where
  jobs : List Job := []
deriving DecidableEq, Repr

/-- `Job.do(job_func, …)`: bind the callable (not modelled further — its
behaviour enters `Job.run` as a parameter), compute the initial `next_run`,
then append the job to the scheduler's registry.  The second component is
the post-state of the registry: when `_schedule_next_run` raises, the
append is never reached and the registry is unchanged. -/
def Sch.doJob (s : Sch) (j : Job) (now : DateTime) (draw : Int) :
    Except PyErr Job × Sch :=
  match j.scheduleNextRun now draw with
  | .error e => (.error e, s)
  | .ok (j', _) => (.ok j', ⟨s.jobs ++ [j']⟩)

/-! ## Job.run and the dispatcher -/

def Job.isOverdue (j : Job) (whenAt : DateTime) : Bool :=
  match j.cancelAfter with
  | some ca => whenAt.usec > ca.usec
  | none => false

/-- `Job.should_run`: `now >= next_run` (the source asserts that
`next_run` is set; a finalized job always has it). -/
def Job.shouldRun (j : Job) (now : DateTime) : Bool :=
  match j.nextRun with
  | some nr => now.usec ≥ nr.usec
  | none => false

/-- `Job.run()`.  `fnResult` is the outcome of invoking the bound callable
(`.error e` when the callable raises `e`).  The first component is the
outcome of the call (return value or propagated exception); the second is
the post-state of the job.  When the deadline has passed before execution
the callable is not invoked and `CancelJob` is returned; when the callable
raises, the exception propagates before `last_run` is assigned, so the job
is unchanged. -/
def Job.run (j : Job) (fnResult : Except PyErr RetVal) (now : DateTime) (draw : Int) :
    Except PyErr RetVal × Job :=
  if j.isOverdue now then (.ok .cancelJob, j)
  else
    match fnResult with
    | .error e => (.error e, j)
    | .ok ret =>
      let j1 := { j with lastRun := some now }
      match j1.scheduleNextRun now draw with
      | .error e => (.error e, j1)
      | .ok (j2, nr) =>
        if j2.isOverdue nr then (.ok .cancelJob, j2) else (.ok ret, j2)

/-- `AsyncScheduler.run_pending()` over the registry `s`: the due jobs
(`should_run`) are gathered with `asyncio.gather`, which runs every task to
completion and re-raises the first exception; a non-due job is untouched.
`results` supplies, positionally, the outcome of each job's callable.
Per-job post-processing of a successful run is `_check_returned_value`,
whose module (`schedule/scheduler.py`) is absent from the source tree.
Modelled from the spec: if the return value is the cancel sentinel the job
is removed from the registry; a job whose run raised is left registered in
its (unchanged) state, and the first exception propagates out of
`run_pending` as the outcome. -/
def Sch.runPendingAsync (s : Sch) (results : List (Except PyErr RetVal))
    (now : DateTime) (draw : Int) : Except PyErr Unit × Sch :=
  let outs := (s.jobs.zip results).map (fun jr =>
    if jr.1.shouldRun now then
      let (o, j') := jr.1.run jr.2 now draw
      (some o, j')
    else ((none : Option (Except PyErr RetVal)), jr.1))
  let errs := outs.filterMap (fun oj =>
    match oj.1 with
    | some (.error e) => some e
    | _ => none)
  let newJobs := outs.filterMap (fun oj =>
    match oj.1 with
    | some (.ok .cancelJob) => none
    | _ => some oj.2)
  (match errs with
   | [] => .ok ()
   | e :: _ => .error e, ⟨newJobs⟩)

/-! ## Specification-side formulas

The following definitions word the recurrence formulas the way the
specification states them (§4.2.2, §4.2.3, §4.2.4); the theorems below
compare the result of the source-derived `Job.scheduleNextRun` against
them. -/

/-- The weekday-anchored candidate as §4.2.2 words it: `days_ahead =
index(start_day) − weekday(candidate)`, plus 7 when `≤ 0`, then
`candidate + days_ahead × 1 day − period`. -/
def specWeekdayNext (sd : String) (i : Int) (now : DateTime) : DateTime :=
  let period := unitDelta "weeks" i
  let cand := now.add period
  let da0 := (weekdayNames.indexOf sd : Int) - cand.weekday
  let da := if da0 ≤ 0 then da0 + 7 else da0
  (cand.add (tdDays da)).subD period

/-- The wall-clock-replaced candidate of §4.2.3 for a job without a
weekday anchor: `reference + period` with the unit-appropriate fields
replaced by those of `at_time` (and microsecond zeroed). -/
def specAtCandidate (u : String) (t : TimeOfDay) (i : Int) (now : DateTime) : DateTime :=
  (now.add (unitDelta u i)).replaceHMS (if u = "days" then some t.hour else none)
    (if u = "days" ∨ u = "hours" then some t.minute else none) t.second

/-- The catch-up-today rewind of §4.2.3: one day, one hour or one minute
under the respective per-unit conditions, else nothing. -/
def specCatchUpRewind (u : String) (t : TimeOfDay) (i : Int) (now : DateTime) : TimeDelta :=
  if u = "days" ∧ t.gtTime now ∧ i = 1 then tdDays 1
  else if u = "hours" ∧ (t.minute > now.minute ∨
      (t.minute = now.minute ∧ t.second > now.second)) then tdHours 1
  else if u = "minutes" ∧ t.second > now.second then tdMinutes 1
  else ⟨0⟩

/-- The weekday-plus-at_time candidate of §4.2.4 before the overshoot
guard: the weekday-anchored candidate with hour, minute and second
replaced from `at_time`. -/
def specWeekdayAtCandidate (sd : String) (t : TimeOfDay) (i : Int) (now : DateTime) : DateTime :=
  (specWeekdayNext sd i now).replaceHMS (some t.hour) (some t.minute) t.second

/-! ## Shared helper lemmas -/

theorem mem_tagsUpdate (x : Tag) (ts : List Tag) :
    ∀ tags : List Tag, x ∈ tagsUpdate tags ts ↔ x ∈ tags ∨ x ∈ ts := by
  induction ts with
  | nil => intro tags; simp [tagsUpdate]
  | cons t ts ih =>
    intro tags
    simp only [tagsUpdate, List.foldl_cons] at ih ⊢
    rw [ih]
    by_cases h : t ∈ tags
    · simp only [if_pos h, List.mem_cons]
      constructor
      · rintro (hx | hx)
        · exact Or.inl hx
        · exact Or.inr (Or.inr hx)
      · rintro (hx | rfl | hx)
        · exact Or.inl hx
        · exact Or.inl h
        · exact Or.inr hx
    · simp only [if_neg h, List.mem_append, List.mem_singleton, List.mem_cons]
      tauto

theorem nodup_tagsUpdate (ts : List Tag) :
    ∀ tags : List Tag, tags.Nodup → (tagsUpdate tags ts).Nodup := by
  induction ts with
  | nil => intro tags h; simpa [tagsUpdate] using h
  | cons t ts ih =>
    intro tags h
    simp only [tagsUpdate, List.foldl_cons]
    by_cases ht : t ∈ tags
    · simpa [ht] using ih tags h
    · have : (tags ++ [t]).Nodup := by simp [List.nodup_append, h, ht]
      simpa [ht] using ih (tags ++ [t]) this

/-- On success, `_schedule_next_run` only rewrites `period` and
`next_run`; every other field of the job is preserved, and `next_run`
stores exactly the returned instant. -/
theorem scheduleNextRun_ok_state (j : Job) (now : DateTime) (d : Int) (j' : Job)
    (nr : DateTime) (h : j.scheduleNextRun now d = .ok (j', nr)) :
    j'.lastRun = j.lastRun ∧ j'.cancelAfter = j.cancelAfter ∧ j'.nextRun = some nr ∧
    j'.interval = j.interval ∧ j'.latest = j.latest ∧ j'.unit = j.unit ∧
    j'.atTime = j.atTime ∧ j'.startDay = j.startDay ∧ j'.tags = j.tags := by
  unfold Job.scheduleNextRun at h
  split at h
  · exact absurd h (by simp)
  · simp only [Except.ok.injEq, Prod.mk.injEq] at h
    obtain ⟨h1, h2⟩ := h
    subst h2
    rw [← h1]
    simp

/-! ## Claim C10 -/

/-- C10: `Job.tag` is atomic in its error case: if any argument of a
single `tag()` call is not hashable, `TypeError` is raised and the job's
tag set is left completely unchanged — no tag from that call, including
the hashable ones, is added; when all arguments are hashable, every one of
them is added and duplicates are coalesced (the tag set stays
duplicate-free). -/
theorem c10_tag_atomicity (j : Job) (ts : List Tag) :
    ((∃ t ∈ ts, t.hashable = false) →
      j.tag ts = (.error (.typeErr "Tags must be hashable"), j)) ∧
    ((∀ t ∈ ts, t.hashable = true) →
      (j.tag ts).1 = .ok () ∧
      (∀ x, x ∈ (j.tag ts).2.tags ↔ x ∈ j.tags ∨ x ∈ ts) ∧
      (j.tags.Nodup → (j.tag ts).2.tags.Nodup)) := by
  constructor
  · rintro ⟨t, ht, hh⟩
    have hna : ¬ ts.all (fun t => t.hashable) := by
      simp only [List.all_eq_true, not_forall]
      exact ⟨t, ht, by simp [hh]⟩
    simp [Job.tag, hna]
  · intro h
    have hall : ts.all (fun t => t.hashable) := by
      simp only [List.all_eq_true]
      exact h
    have heq : j.tag ts = (.ok (), { j with tags := tagsUpdate j.tags ts }) := by
      simp [Job.tag, hall]
    rw [heq]
    refine ⟨rfl, ?_, ?_⟩
    · intro x
      exact mem_tagsUpdate x ts j.tags
    · intro hnd
      exact nodup_tagsUpdate ts j.tags hnd

/-- Witness for C10 at a concrete input: one unhashable argument among
hashable ones makes the whole call fail with `TypeError` and leave the tag
set untouched. -/
theorem c10_tag_atomicity_witness :
    Job.tag { every with tags := [⟨1, true⟩] } [⟨4, true⟩, ⟨2, false⟩]
      = (.error (.typeErr "Tags must be hashable"), { every with tags := [⟨1, true⟩] }) :=
  (c10_tag_atomicity { every with tags := [⟨1, true⟩] } [⟨4, true⟩, ⟨2, false⟩]).1
    ⟨⟨2, false⟩, by decide, rfl⟩

/-! ## Claim C9 -/

/-- C9 counterexample: finalizing `every(2).to(1).seconds` raises the base
class `ScheduleError`, which `except ScheduleValueError` would not catch —
the claim's asserted error type `ScheduleValueError` is wrong. -/
theorem c9_counterexample :
    (Sch.doJob ⟨[]⟩ { every 2 with unit := some "seconds", latest := some 1 }
        (mkDateTime 2020 1 1 0 0 0) 1).1
      = .error (.schedule "latest is greater than interval") ∧
    (PyErr.schedule "latest is greater than interval").isScheduleValueError = false := by
  constructor
  · rfl
  · rfl

/-- C9 (amended): configuring `latest < interval` is an invalid spec
surfaced when the job is finalized, as an error of type `ScheduleError`
(the base class — not its subclass `ScheduleValueError`), and a job so
configured is never installed in the registry (the registry is returned
unchanged). -/
theorem c9_latest_lt_interval (s : Sch) (j : Job) (u : String) (l : Int)
    (now : DateTime) (d : Int) (hu : j.unit = some u)
    (huv : u = "seconds" ∨ u = "minutes" ∨ u = "hours" ∨ u = "days" ∨ u = "weeks")
    (hl : j.latest = some l) (hlt : l < j.interval) :
    s.doJob j now d = (.error (.schedule "latest is greater than interval"), s) ∧
    (PyErr.schedule "latest is greater than interval").isScheduleValueError = false := by
  refine ⟨?_, rfl⟩
  have hcore : j.nextRunCore now d = .error (.schedule "latest is greater than interval") := by
    simp only [Job.nextRunCore, hu]
    rw [if_neg (by tauto)]
    have hch : j.chooseInterval d = .error (.schedule "latest is greater than interval") := by
      simp only [Job.chooseInterval, hl]
      rw [if_pos (show ¬ l ≥ j.interval by omega)]
    simp only [hch]
  unfold Sch.doJob Job.scheduleNextRun
  rw [hcore]

/-- Witness for C9's amended theorem at a concrete input. -/
theorem c9_latest_lt_interval_witness :
    Sch.doJob ⟨[]⟩ { every 5 with unit := some "minutes", latest := some 3 }
        (mkDateTime 2021 7 1 8 0 0) 4
      = (.error (.schedule "latest is greater than interval"), ⟨[]⟩) :=
  (c9_latest_lt_interval ⟨[]⟩ { every 5 with unit := some "minutes", latest := some 3 }
    "minutes" 3 (mkDateTime 2021 7 1 8 0 0) 4 rfl (by tauto) rfl (by decide)).1

/-! ## Claim C7 -/

/-- C7: for a finalized job with `latest` set (and `latest ≥ interval`),
each computation of the next run uses the freshly drawn integer `draw`
from `random.randint(interval, latest)` — whose contract makes it a
uniform value with `interval ≤ draw ≤ latest` — and sets
`period = draw × one_unit(unit)`; hence every observed period lies within
`[interval, latest] × one_unit(unit)`.  Each invocation consumes its own
`draw` parameter, so fresh independent draws occur on every cycle. -/
theorem c7_randomized_period (j : Job) (u : String) (l : Int) (now : DateTime)
    (d : Int) (hu : j.unit = some u) (hl : j.latest = some l)
    (hd1 : j.interval ≤ d) (hd2 : d ≤ l) :
    ∀ j' nr, j.scheduleNextRun now d = .ok (j', nr) →
      j'.period = some (unitDelta u d) ∧
      (unitDelta u j.interval).usec ≤ (unitDelta u d).usec ∧
      (unitDelta u d).usec ≤ (unitDelta u l).usec := by
  intro j' nr h
  unfold Job.scheduleNextRun at h
  cases hcore : j.nextRunCore now d with
  | error e => rw [hcore] at h; exact absurd h (by simp)
  | ok pnr =>
    rw [hcore] at h
    obtain ⟨p, nr'⟩ := pnr
    simp only [Except.ok.injEq, Prod.mk.injEq] at h
    obtain ⟨hj, -⟩ := h
    simp only [Job.nextRunCore, hu] at hcore
    by_cases hv : u = "seconds" ∨ u = "minutes" ∨ u = "hours" ∨ u = "days" ∨ u = "weeks"
    · rw [if_neg (by tauto)] at hcore
      have hch : j.chooseInterval d = .ok d := by
        simp only [Job.chooseInterval, hl]
        rw [if_neg (show ¬ ¬ l ≥ j.interval by omega)]
      simp only [hch] at hcore
      have hp : p = unitDelta u d := by
        rcases h1 : j.weekdayStep u (unitDelta u d) (now.add (unitDelta u d)) with e | nr1
        · simp only [h1] at hcore
          exact absurd hcore (by simp)
        · simp only [h1] at hcore
          rcases h2 : j.atStep u (unitDelta u d) now nr1 with e | nr2
          · simp only [h2] at hcore
            exact absurd hcore (by simp)
          · simp only [h2, Except.ok.injEq, Prod.mk.injEq] at hcore
            exact hcore.1.symm
      subst hp
      refine ⟨by rw [← hj], ?_, ?_⟩
      · rcases hv with rfl | rfl | rfl | rfl | rfl <;>
          simp only [unitDelta, if_pos rfl, reduceIte] <;>
          exact mul_le_mul_of_nonneg_right hd1 (by decide)
      · rcases hv with rfl | rfl | rfl | rfl | rfl <;>
          simp only [unitDelta, if_pos rfl, reduceIte] <;>
          exact mul_le_mul_of_nonneg_right hd2 (by decide)
    · rw [if_pos hv] at hcore
      exact absurd hcore (by simp)

/-- Witness for C7 at a concrete input: `every(5).to(30).minutes` with the
draw 17 gets period 17 minutes, inside the `[5, 30]` minute bounds. -/
theorem c7_randomized_period_witness :
    ((every 5).to 30).minutes.period = none ∧
    (∀ j' nr,
      Job.scheduleNextRun ((every 5).to 30).minutes (mkDateTime 2014 6 28 12 0 0) 17
        = .ok (j', nr) →
      j'.period = some (unitDelta "minutes" 17) ∧
      (unitDelta "minutes" 5).usec ≤ (unitDelta "minutes" 17).usec ∧
      (unitDelta "minutes" 17).usec ≤ (unitDelta "minutes" 30).usec) :=
  ⟨rfl, c7_randomized_period ((every 5).to 30).minutes "minutes" 30
    (mkDateTime 2014 6 28 12 0 0) 17 rfl rfl (by decide) (by decide)⟩

/-! ## Claim C4 -/

/-- C4: deadline policy of `Job.run`.  For a job with `cancel_after` set:
if `now` is strictly past the deadline before execution, `run` returns the
cancel sentinel without invoking the callable (the result is the same for
every callable outcome `fr`, and the job is untouched); otherwise the
callable is invoked, `last_run` and `next_run` are updated, and `run`
returns the cancel sentinel — overriding the callable's return value —
exactly when the recomputed `next_run` is strictly past the deadline, so a
run whose deadline is exceeded only by the next scheduled run still
executes once. -/
theorem c4_deadline_policy (j : Job) (dl now : DateTime) (d v : Int)
    (hca : j.cancelAfter = some dl) :
    (dl.usec < now.usec → ∀ fr, j.run fr now d = (.ok .cancelJob, j)) ∧
    (¬ dl.usec < now.usec →
      ∀ j2 nr, Job.scheduleNextRun { j with lastRun := some now } now d = .ok (j2, nr) →
        j.run (.ok (.value v)) now d
          = ((if dl.usec < nr.usec then .ok .cancelJob else .ok (.value v)), j2) ∧
        j2.lastRun = some now ∧ j2.nextRun = some nr) := by
  constructor
  · intro hlt fr
    have hov : j.isOverdue now = true := by
      simp only [Job.isOverdue, hca, decide_eq_true_eq]
      omega
    simp [Job.run, hov]
  · intro hge j2 nr hsch
    have hov : j.isOverdue now = false := by
      simp only [Job.isOverdue, hca, decide_eq_false_iff_not]
      omega
    obtain ⟨hlr, hcaj, hnr, -⟩ := scheduleNextRun_ok_state _ _ _ _ _ hsch
    have hca2 : j2.cancelAfter = some dl := by
      rw [hcaj]
      exact hca
    have hov2 : j2.isOverdue nr = (decide (nr.usec > dl.usec)) := by
      simp [Job.isOverdue, hca2]
    refine ⟨?_, ?_, hnr⟩
    · simp only [Job.run, hov, Bool.false_eq_true, if_false, hsch, hov2]
      by_cases hc : dl.usec < nr.usec
      · rw [if_pos (by simp [hc]), if_pos hc]
      · rw [if_neg (by simp [hc]), if_neg hc]
    · rw [hlr]

/-- Witness for C4 at a concrete input (the spec's scenario 6 shape):
`every(5).seconds.until(11:35:20)` run at `11:35:17` executes once (the
callable outcome is consumed, `last_run` is set) and then returns the
cancel sentinel because the recomputed `next_run` `11:35:22` exceeds the
deadline. -/
theorem c4_deadline_policy_witness :
    (Job.run
      { every 5 with
          unit := some "seconds",
          cancelAfter := some (mkDateTime 2020 1 1 11 35 20) }
      (.ok (.value 42)) (mkDateTime 2020 1 1 11 35 17) 0).1 = .ok .cancelJob ∧
    (Job.run
      { every 5 with
          unit := some "seconds",
          cancelAfter := some (mkDateTime 2020 1 1 11 35 20) }
      (.ok (.value 42)) (mkDateTime 2020 1 1 11 35 17) 0).2.lastRun
      = some (mkDateTime 2020 1 1 11 35 17) := by
  have h := (c4_deadline_policy
      { every 5 with
          unit := some "seconds",
          cancelAfter := some (mkDateTime 2020 1 1 11 35 20) }
      (mkDateTime 2020 1 1 11 35 20) (mkDateTime 2020 1 1 11 35 17) 0 42 rfl).2
    (by decide)
    { every 5 with
        unit := some "seconds",
        cancelAfter := some (mkDateTime 2020 1 1 11 35 20),
        lastRun := some (mkDateTime 2020 1 1 11 35 17),
        period := some ⟨5000000⟩,
        nextRun := some (mkDateTime 2020 1 1 11 35 22) }
    (mkDateTime 2020 1 1 11 35 22) (by rfl)
  constructor
  · rw [h.1]
    rfl
  · rw [h.1]

/-! ## Claim C3 -/

/-- C3 counterexample: a due job whose callable raises does not have the
exception caught and reported — the embedded outcome of both `Job.run` and
the dispatcher's `run_pending` is the propagated exception itself, and the
job's state (`last_run`, `next_run`) is left untouched rather than
rescheduled. -/
theorem c3_counterexample :
    Job.run
      { every with
          unit := some "seconds",
          nextRun := some (mkDateTime 2010 1 6 12 0 0) }
      (.error (.callable "boom")) (mkDateTime 2010 1 6 12 5 0) 1
      = (.error (.callable "boom"),
        { every with
            unit := some "seconds",
            nextRun := some (mkDateTime 2010 1 6 12 0 0) }) ∧
    Sch.runPendingAsync
        ⟨[{ every with
              unit := some "seconds",
              nextRun := some (mkDateTime 2010 1 6 12 0 0) }]⟩
        [.error (.callable "boom")] (mkDateTime 2010 1 6 12 5 0) 1
      = (.error (.callable "boom"),
        ⟨[{ every with
              unit := some "seconds",
              nextRun := some (mkDateTime 2010 1 6 12 0 0) }]⟩) := by
  exact ⟨rfl, rfl⟩

/-- C3 (amended): an exception raised by the job's callable while the
dispatcher runs due jobs is not caught: it propagates out of `Job.run`
(raised before `last_run` is assigned, so the job's state is unchanged)
and out of `run_pending`; the job stays registered with its previous
`next_run`, so — that instant being in the past — it is retried on a later
poll. -/
theorem c3_exception_propagates (j : Job) (m : String) (now : DateTime) (d : Int)
    (hover : j.isOverdue now = false) :
    j.run (.error (.callable m)) now d = (.error (.callable m), j) ∧
    (j.shouldRun now = true →
      Sch.runPendingAsync ⟨[j]⟩ [.error (.callable m)] now d
        = (.error (.callable m), ⟨[j]⟩)) := by
  have hrun : j.run (.error (.callable m)) now d = (.error (.callable m), j) := by
    simp [Job.run, hover]
  refine ⟨hrun, ?_⟩
  intro hdue
  simp [Sch.runPendingAsync, hdue, hrun]

/-- Witness for C3's amended theorem at a concrete input. -/
theorem c3_exception_propagates_witness :
    Job.run
      { every with
          unit := some "minutes",
          nextRun := some (mkDateTime 2022 5 4 9 0 0) }
      (.error (.callable "job failed")) (mkDateTime 2022 5 4 9 1 0) 1
      = (.error (.callable "job failed"),
        { every with
            unit := some "minutes",
            nextRun := some (mkDateTime 2022 5 4 9 0 0) }) ∧
    Sch.runPendingAsync
        ⟨[{ every with
              unit := some "minutes",
              nextRun := some (mkDateTime 2022 5 4 9 0 0) }]⟩
        [.error (.callable "job failed")] (mkDateTime 2022 5 4 9 1 0) 1
      = (.error (.callable "job failed"),
        ⟨[{ every with
              unit := some "minutes",
              nextRun := some (mkDateTime 2022 5 4 9 0 0) }]⟩) := by
  have h := c3_exception_propagates
    { every with
        unit := some "minutes",
        nextRun := some (mkDateTime 2022 5 4 9 0 0) }
    "job failed" (mkDateTime 2022 5 4 9 1 0) 1 rfl
  exact ⟨h.1, h.2 (by decide)⟩

/-! ## Claim C8 -/

/-- C8 counterexample: a resolved deadline exactly equal to the current
instant is *not strictly in the future*, yet `until()` accepts it (the
source only rejects `cancel_after < now`): the claim's boundary is wrong. -/
theorem c8_counterexample :
    Job.until every.seconds (.dt (mkDateTime 2020 6 1 10 0 0)) (mkDateTime 2020 6 1 10 0 0)
      = .ok { every.seconds with cancelAfter := some (mkDateTime 2020 6 1 10 0 0) } := by
  rfl

/-- C8 (amended): for every accepted argument form of `until()` — an
absolute datetime, a timedelta added to now, a time-of-day combined with
today's date, or a string in one of the five listed formats (a string
without a date part is re-anchored to today) — a resolved deadline
strictly in the past (`deadline < now`; a deadline equal to now is
accepted) raises `ScheduleValueError`; an unparseable string raises
`ScheduleValueError`; a value of any other type raises `TypeError`. -/
theorem c8_until_validation (j : Job) (now : DateTime) :
    (∀ dt : DateTime, j.until (.dt dt) now =
      (if dt.usec < now.usec then
        .error (.scheduleValue "Cannot schedule a job to run until a time in the past")
      else .ok { j with cancelAfter := some dt })) ∧
    (∀ td : TimeDelta, j.until (.delta td) now =
      (if (now.add td).usec < now.usec then
        .error (.scheduleValue "Cannot schedule a job to run until a time in the past")
      else .ok { j with cancelAfter := some (now.add td) })) ∧
    (∀ t : TimeOfDay, j.until (.tod t) now =
      (if (⟨now.days * usecPerDay + t.toUsec⟩ : DateTime).usec < now.usec then
        .error (.scheduleValue "Cannot schedule a job to run until a time in the past")
      else .ok { j with cancelAfter := some ⟨now.days * usecPerDay + t.toUsec⟩ })) ∧
    (∀ s : String, decodeDatetimestr s untilFormats = none →
      j.until (.str s) now = .error (.scheduleValue "Invalid string format for until()")) ∧
    (∀ s dd dd', decodeDatetimestr s untilFormats = some dd →
      dd' = (if ¬ (s.toList.contains '-') then dd.setDate now else dd) →
      j.until (.str s) now =
        (if dd'.usec < now.usec then
          .error (.scheduleValue "Cannot schedule a job to run until a time in the past")
        else .ok { j with cancelAfter := some dd' })) ∧
    (j.until .other now =
      .error (.typeErr "until() takes a string, datetime.datetime, datetime.timedelta, datetime.time parameter")) := by
  refine ⟨?_, ?_, ?_, ?_, ?_, ?_⟩
  · intro dt
    simp only [Job.until]
  · intro td
    simp only [Job.until]
  · intro t
    simp only [Job.until]
  · intro s hs
    simp only [Job.until, hs]
  · intro s dd dd' hs hdd
    subst hdd
    simp only [Job.until, hs]
  · rfl

/-- Witness for C8's amended theorem at concrete inputs: an unparseable
string raises `ScheduleValueError`, and a time-only string is re-anchored
to today's date, with a past-of-today deadline rejected. -/
theorem c8_until_validation_witness :
    Job.until every.seconds (.str "gibberish") (mkDateTime 2021 1 1 12 0 0)
      = .error (.scheduleValue "Invalid string format for until()") ∧
    Job.until every.seconds (.str "09:30") (mkDateTime 2021 1 1 12 0 0)
      = .error (.scheduleValue "Cannot schedule a job to run until a time in the past") := by
  constructor
  · exact (c8_until_validation every.seconds (mkDateTime 2021 1 1 12 0 0)).2.2.2.1
      "gibberish" (by rfl)
  · have h := (c8_until_validation every.seconds (mkDateTime 2021 1 1 12 0 0)).2.2.2.2.1
      "09:30" (mkDateTime 1900 1 1 9 30 0)
      ((mkDateTime 1900 1 1 9 30 0).setDate (mkDateTime 2021 1 1 12 0 0)) (by rfl) (by rfl)
    rw [h]
    rfl

/-! ## Claim C1 -/

/-- C1: catch-up-today rule.  For a finalized job with `at_time` set (no
weekday anchor, no randomized interval), when the job has never run or the
interval just consumed exceeded one period, the computed `next_run` is the
wall-clock-replaced candidate rewound by the per-unit amount: one day for
`unit = days` when `at_time` is strictly later than now's time-of-day and
`interval = 1`; one hour for `unit = hours` when `at_time.minute` exceeds
`now.minute` or the minutes are equal and `at_time.second` exceeds
`now.second`; one minute for `unit = minutes` when `at_time.second`
exceeds `now.second`; and nothing otherwise.  In particular (witness)
`every().day.at("12:30")` finalized at `2010-01-06 12:15` yields
`next_run = 2010-01-06 12:30`, the same day. -/
theorem c1_catch_up_today (j : Job) (now : DateTime) (d : Int) (u : String)
    (t : TimeOfDay) (hu : j.unit = some u)
    (huv : u = "days" ∨ u = "hours" ∨ u = "minutes")
    (hsd : j.startDay = none) (hlat : j.latest = none) (hat : j.atTime = some t)
    (htrig : j.lastRun = none ∨
      ∃ lr, j.lastRun = some lr ∧
        ((specAtCandidate u t j.interval now).sub lr).usec
          > (unitDelta u j.interval).usec) :
    (j.scheduleNextRun now d).map Prod.snd
      = .ok ((specAtCandidate u t j.interval now).subD
          (specCatchUpRewind u t j.interval now)) := by
  have hch : j.chooseInterval d = .ok j.interval := by
    simp [Job.chooseInterval, hlat]
  have hwd : j.weekdayStep u (unitDelta u j.interval)
      (now.add (unitDelta u j.interval)) = .ok (now.add (unitDelta u j.interval)) := by
    simp [Job.weekdayStep, hsd]
  have hatStep : j.atStep u (unitDelta u j.interval) now
      (now.add (unitDelta u j.interval))
      = .ok ((specAtCandidate u t j.interval now).subD
          (specCatchUpRewind u t j.interval now)) := by
    simp only [Job.atStep, hat, hsd]
    rw [if_neg (fun hcon => hcon.1 huv)]
    have hHourK : (if u = "days" ∨ (none : Option String) ≠ none then some t.hour
        else none) = (if u = "days" then some t.hour else none) := by
      simp
    have hMinK : (if u = "days" ∨ u = "hours" ∨ (none : Option String) ≠ none
        then some t.minute else none)
        = (if u = "days" ∨ u = "hours" then some t.minute else none) := by
      simp
    rw [hHourK, hMinK]
    have htr : (match j.lastRun with
        | none => true
        | some lr =>
          decide ((((now.add (unitDelta u j.interval)).replaceHMS
            (if u = "days" then some t.hour else none)
            (if u = "days" ∨ u = "hours" then some t.minute else none)
            t.second).sub lr).usec > (unitDelta u j.interval).usec)) = true := by
      rcases htrig with hnone | ⟨lr, hlr, hgt⟩
      · rw [hnone]
      · rw [hlr]
        simpa [specAtCandidate] using hgt
    rw [htr]
    simp only [if_pos rfl]
    unfold specCatchUpRewind specAtCandidate
    split_ifs with h1 h2 h3 <;>
      simp [DateTime.subD]
  have hcore : j.nextRunCore now d
      = .ok (unitDelta u j.interval,
          (specAtCandidate u t j.interval now).subD
            (specCatchUpRewind u t j.interval now)) := by
    simp only [Job.nextRunCore, hu]
    rw [if_neg (by tauto)]
    simp only [hch, hwd, hatStep]
    simp [Job.overshootStep, hsd]
  simp [Job.scheduleNextRun, hcore, Except.map]

/-- Witness for C1 at the claim's concrete input:
`every().day.at("12:30")` finalized at `2010-01-06 12:15` local fires the
same day at `12:30`. -/
theorem c1_catch_up_today_witness :
    (Job.scheduleNextRun
        { every with unit := some "days", atTime := some ⟨12, 30, 0⟩ }
        (mkDateTime 2010 1 6 12 15 0) 0).map Prod.snd
      = .ok (mkDateTime 2010 1 6 12 30 0) := by
  have h := c1_catch_up_today
    { every with unit := some "days", atTime := some ⟨12, 30, 0⟩ }
    (mkDateTime 2010 1 6 12 15 0) 0 "days" ⟨12, 30, 0⟩ rfl (Or.inl rfl)
    rfl rfl rfl (Or.inl rfl)
  rw [h]
  rfl

/-! ## Claim C2 -/

/-- C2: weekday anchoring.  For a finalized job with a weekday anchor (and
no `at_time`, no randomized interval), the computed `next_run` equals the
specification's formula — `days_ahead = index(start_day) −
weekday(candidate)`, plus 7 when `≤ 0`, then `candidate + days_ahead × 1
day − period` — and that instant falls on the anchored weekday strictly
within the seven days after `now` (the current or next week), rather than
one week later. -/
theorem c2_weekday_anchoring (j : Job) (sd : String) (now : DateTime) (d : Int)
    (hsd : j.startDay = some sd) (hmem : sd ∈ weekdayNames)
    (hu : j.unit = some "weeks") (hat : j.atTime = none) (hlat : j.latest = none) :
    (j.scheduleNextRun now d).map Prod.snd = .ok (specWeekdayNext sd j.interval now) ∧
    (specWeekdayNext sd j.interval now).weekday = (weekdayNames.indexOf sd : Nat) ∧
    now.usec < (specWeekdayNext sd j.interval now).usec ∧
    (specWeekdayNext sd j.interval now).usec ≤ now.usec + 7 * usecPerDay := by
  have hidx : weekdayNames.indexOf sd < 7 := by
    have := List.indexOf_lt_length.mpr hmem
    simpa [weekdayNames] using this
  have hch : j.chooseInterval d = .ok j.interval := by
    simp [Job.chooseInterval, hlat]
  have hwd : j.weekdayStep "weeks" (unitDelta "weeks" j.interval)
      (now.add (unitDelta "weeks" j.interval)) = .ok (specWeekdayNext sd j.interval now) := by
    simp only [Job.weekdayStep, hsd]
    rw [if_neg (by simp)]
    rw [if_neg (by simpa using hmem)]
    rfl
  have hatS : ∀ x, j.atStep "weeks" (unitDelta "weeks" j.interval) now x = .ok x := by
    intro x
    simp [Job.atStep, hat]
  have hov : ∀ x, j.overshootStep (unitDelta "weeks" j.interval) now x = x := by
    intro x
    simp [Job.overshootStep, hat]
  have hcore : j.nextRunCore now d
      = .ok (unitDelta "weeks" j.interval, specWeekdayNext sd j.interval now) := by
    simp only [Job.nextRunCore, hu]
    rw [if_neg (by tauto)]
    simp only [hch, hwd, hatS, hov]
  have hweeks : ∀ n : Int, unitDelta "weeks" n = ⟨n * usecPerWeek⟩ := fun n => rfl
  refine ⟨by simp [Job.scheduleNextRun, hcore, Except.map], ?_, ?_, ?_⟩ <;>
    · simp only [specWeekdayNext, DateTime.weekday, DateTime.days, DateTime.add,
        DateTime.subD, tdDays, hweeks, usecPerWeek, usecPerDay]
      split_ifs <;> omega

/-- Witness for C2 at a concrete input: `every().sunday` finalized on
Wednesday 2010-01-06 12:00 fires on Sunday 2010-01-10 12:00 — within the
current week, on the anchored weekday. -/
theorem c2_weekday_anchoring_witness :
    (Job.scheduleNextRun
        { every with unit := some "weeks", startDay := some "sunday" }
        (mkDateTime 2010 1 6 12 0 0) 0).map Prod.snd
      = .ok (mkDateTime 2010 1 10 12 0 0) ∧
    (mkDateTime 2010 1 10 12 0 0).weekday = 6 := by
  have h := c2_weekday_anchoring
    { every with unit := some "weeks", startDay := some "sunday" }
    "sunday" (mkDateTime 2010 1 6 12 0 0) 0 rfl (by decide) rfl rfl rfl
  constructor
  · rw [h.1]
    rfl
  · rfl

/-! ## Claim C6 -/

/-- C6: weekday-plus-at_time overshoot guard.  For a finalized job with
both a weekday anchor and an `at_time` (interval 1, so the period is one
week), if after wall-clock replacement the candidate minus the reference
instant is at least 7 days, the recurrence computation subtracts exactly
one period (one week) from the candidate. -/
theorem c6_overshoot_guard (j : Job) (sd : String) (t : TimeOfDay) (now : DateTime)
    (d : Int) (hsd : j.startDay = some sd) (hmem : sd ∈ weekdayNames)
    (hu : j.unit = some "weeks") (hat : j.atTime = some t) (hlat : j.latest = none)
    (hint : j.interval = 1)
    (h7 : 7 * usecPerDay ≤ ((specWeekdayAtCandidate sd t 1 now).sub now).usec) :
    (j.scheduleNextRun now d).map Prod.snd
      = .ok ((specWeekdayAtCandidate sd t 1 now).subD (unitDelta "weeks" 1)) := by
  have hch : j.chooseInterval d = .ok 1 := by
    simp [Job.chooseInterval, hlat, hint]
  have hwd : j.weekdayStep "weeks" (unitDelta "weeks" 1)
      (now.add (unitDelta "weeks" 1)) = .ok (specWeekdayNext sd 1 now) := by
    simp only [Job.weekdayStep, hsd]
    rw [if_neg (by simp)]
    rw [if_neg (by simpa using hmem)]
    rfl
  have hatS : j.atStep "weeks" (unitDelta "weeks" 1) now (specWeekdayNext sd 1 now)
      = .ok (specWeekdayAtCandidate sd t 1 now) := by
    simp only [Job.atStep, hat, hsd]
    rw [if_neg (by simp)]
    have hHourK : ((("weeks" : String) = "days") ∨ (some sd ≠ none)) := by simp
    rw [if_pos hHourK]
    rw [if_pos (by simp : (("weeks" : String) = "days") ∨ (("weeks" : String) = "hours") ∨ (some sd ≠ none))]
    split
    · rw [if_neg (fun hcon => by simpa using hcon.1),
        if_neg (fun hcon => by simpa using hcon.1),
        if_neg (fun hcon => by simpa using hcon.1)]
      rfl
    · rfl
  have hdays : ((specWeekdayAtCandidate sd t 1 now).sub now).days ≥ 7 := by
    simp only [TimeDelta.days, DateTime.sub, usecPerDay] at h7 ⊢
    omega
  have hovS : j.overshootStep (unitDelta "weeks" 1) now (specWeekdayAtCandidate sd t 1 now)
      = (specWeekdayAtCandidate sd t 1 now).subD (unitDelta "weeks" 1) := by
    simp only [Job.overshootStep, hsd, hat]
    rw [if_pos (by simp)]
    rw [if_pos hdays]
  have hcore : j.nextRunCore now d
      = .ok (unitDelta "weeks" 1,
          (specWeekdayAtCandidate sd t 1 now).subD (unitDelta "weeks" 1)) := by
    simp only [Job.nextRunCore, hu]
    rw [if_neg (by tauto)]
    simp only [hch, hwd, hatS, hovS]
  simp [Job.scheduleNextRun, hcore, Except.map]

/-- Witness for C6 at a concrete input: `every().wednesday.at("14:00")`
finalized on Wednesday 2010-01-06 12:00 — the wall-clock-replaced
candidate is 2010-01-13 14:00, a full 7+ days ahead, so one week is
subtracted and the job fires the same day at 14:00. -/
theorem c6_overshoot_guard_witness :
    (Job.scheduleNextRun
        { every with
            unit := some "weeks",
            startDay := some "wednesday",
            atTime := some ⟨14, 0, 0⟩ }
        (mkDateTime 2010 1 6 12 0 0) 0).map Prod.snd
      = .ok (mkDateTime 2010 1 6 14 0 0) := by
  have h := c6_overshoot_guard
    { every with
        unit := some "weeks",
        startDay := some "wednesday",
        atTime := some ⟨14, 0, 0⟩ }
    "wednesday" ⟨14, 0, 0⟩ (mkDateTime 2010 1 6 12 0 0) 0 rfl (by decide)
    rfl rfl rfl rfl (by decide)
  rw [h]
  rfl

/-! ## Claim C5 -/

/-- C5: evaluation of the code at the claim's scenario.  The source's
`Job.at` accepts only a time string (its signature is
`at(self, time_str)`), so the claimed two-argument call
`at("02:30", "Europe/Berlin")` does not exist; the nearest legal call
`every().day.at("02:30")` finalized at naive local 2023-03-26 01:30
produces `next_run = 2023-03-26 02:30` — the recurrence computation
contains no timezone interpretation and no DST-gap adjustment, so the
claimed 03:30 outcome (which the repository's own test
`test_tz_daily_dst_skip_hour` expects) is unobtainable. -/
theorem c5_no_timezone_eval :
    (every.days.at "02:30").bind
        (fun jb => (jb.scheduleNextRun (mkDateTime 2023 3 26 1 30 0) 0).map Prod.snd)
      = .ok (mkDateTime 2023 3 26 2 30 0) ∧
    mkDateTime 2023 3 26 2 30 0 ≠ mkDateTime 2023 3 26 3 30 0 := by
  exact ⟨rfl, by decide⟩

end Sched
